import Mathlib

/-!
Verification of the justino_tjpe document segmentation / report-synthesis
pipeline and the retrieval-and-rerank engine.

Python strings are modelled as `List Char` (named `Str` below), so that the
relevant string operations (`strip`, `startswith`, slicing, `"\n".join`,
`split('\n')`) become simple list functions amenable to proof.  Backend
services (language-model completion, embedding, vector search, cross-encoder
scoring) are modelled as oracle parameters; fallible calls are oracles
returning `Except`.
-/

set_option maxRecDepth 4000

abbrev Str := List Char

/-- Conversion from Lean string literals to the `List Char` model. -/
def str (s : String) : Str := s.data

/-- The newline character used by the pipeline's joins and splits. -/
def chNl : Char := '\n'

/-- ASCII whitespace, as recognised by Python's `str.strip` / regex `\s`
on the texts handled here. -/
def isWs (c : Char) : Bool :=
  c = ' ' || c = '\t' || c = '\n' || c = '\r' || c = '\x0b' || c = '\x0c'

/-- Regex word character (`\w` over the ASCII range): letter, digit or
underscore. -/
def isWordChar (c : Char) : Bool := c.isAlphanum || c = '_'

/-- ASCII lowercasing, modelling Python's `str.lower` on the texts handled
here. -/
def pyLower (s : Str) : Str := s.map Char.toLower

/-- Drop trailing characters satisfying `p` (helper for `pyStrip`). -/
def dropTrailWhile (p : Char → Bool) (s : Str) : Str :=
  ((s.reverse).dropWhile p).reverse

/-- Python `str.strip()`: remove leading and trailing whitespace. -/
def pyStrip (s : Str) : Str := dropTrailWhile isWs (s.dropWhile isWs)

/-- Python `"\n".join(xs)`. -/
def joinNl : List Str → Str
  | [] => []
  | [x] => x
  | x :: y :: xs => x ++ chNl :: joinNl (y :: xs)

/-- Python `text.split('\n')` (always returns at least one piece). -/
def splitNl : Str → List Str
  | [] => [[]]
  | c :: s =>
    if c = chNl then [] :: splitNl s
    else
      match splitNl s with
      | [] => [[c]]
      | h :: tl => (c :: h) :: tl

/-- `needle` occurs as a contiguous substring of `hay` (Python `in`). -/
def containsSub (needle hay : Str) : Bool :=
  match hay with
  | [] => needle.isEmpty
  | _ :: t => needle.isPrefixOf hay || containsSub needle t

-- ── basic lemmas about pyStrip ─────────────────────────────────────────────

theorem dropWhile_head_not (p : Char → Bool) (s : Str) :
    ∀ c cs, s.dropWhile p = c :: cs → p c = false := by
  induction s with
  | nil => intro c cs h; simp [List.dropWhile] at h
  | cons a t ih =>
    intro c cs h
    by_cases hp : p a
    · simp [List.dropWhile, hp] at h; exact ih c cs h
    · have hac : a = c ∧ t = cs := by
        have h2 := h
        simp [List.dropWhile, hp] at h2
        exact h2
      rw [← hac.1]
      simpa using hp

theorem dropWhile_eq_self_of_head (p : Char → Bool) (c : Char) (cs : Str)
    (h : p c = false) : (c :: cs).dropWhile p = c :: cs := by
  simp [List.dropWhile, h]

theorem dropTrailWhile_eq_self (p : Char → Bool) (s : Str) (d : Char)
    (hd : p d = false) : dropTrailWhile p (s ++ [d]) = s ++ [d] := by
  unfold dropTrailWhile
  have h1 : (s ++ [d]).reverse = d :: s.reverse := by simp
  rw [h1, dropWhile_eq_self_of_head p d s.reverse hd]
  simp

/-- A string whose first and last characters are not whitespace is unchanged
by `pyStrip`. -/
theorem pyStrip_eq_self (c : Char) (s : Str) (d : Char)
    (hc : isWs c = false) (hd : isWs d = false) :
    pyStrip (c :: (s ++ [d])) = c :: (s ++ [d]) := by
  unfold pyStrip
  rw [dropWhile_eq_self_of_head isWs c (s ++ [d]) hc]
  have h2 : c :: (s ++ [d]) = (c :: s) ++ [d] := by simp
  rw [h2, dropTrailWhile_eq_self isWs (c :: s) d hd]

/-- Any nonempty output of `pyStrip` starts with a non-whitespace character. -/
theorem pyStrip_head_not_ws (s : Str) :
    ∀ c cs, pyStrip s = c :: cs → isWs c = false := by
  intro c cs h
  unfold pyStrip dropTrailWhile at h
  set m := s.dropWhile isWs with hm
  have hsub : m.reverse.dropWhile isWs = cs.reverse ++ [c] := by
    have := congrArg List.reverse h
    simpa using this
  have hsuf : m.reverse.dropWhile isWs <:+ m.reverse := List.dropWhile_suffix isWs
  rw [hsub] at hsuf
  rcases hsuf with ⟨t, ht⟩
  -- reversing: m = c :: (cs ++ t.reverse)
  have hmdec : m = c :: (cs ++ t.reverse) := by
    have := congrArg List.reverse ht
    simpa using this.symm
  exact dropWhile_head_not isWs s c (cs ++ t.reverse) (by rw [← hm, hmdec])

/-- Any nonempty output of `pyStrip` ends with a non-whitespace character. -/
theorem pyStrip_last_not_ws (s : Str) :
    ∀ c cs, pyStrip s = cs ++ [c] → isWs c = false := by
  intro c cs h
  unfold pyStrip dropTrailWhile at h
  have hsub : (s.dropWhile isWs).reverse.dropWhile isWs = c :: cs.reverse := by
    have := congrArg List.reverse h
    simpa using this
  exact dropWhile_head_not isWs (s.dropWhile isWs).reverse c cs.reverse hsub

-- ═══════════════════════ PageClassifier & PageGrouper ═════════════════════
-- Source: src/backend/preprocessing/process_report_pipeline.py, lines 40-135.

/-- Keyword table `PIECE_KWS`: label → keyword variants, in the source's
dictionary order. -/
def PIECE_KWS : List (Str × List Str) :=
  [ (str "peticao_inicial", [str "petição inicial", str "peticao inicial"])
  , (str "contestacao",     [str "contestação", str "contestacao"])
  , (str "decisao",         [str "decisão", str "decisao"])
  , (str "despacho",        [str "despacho"])
  , (str "sentenca",        [str "sentença", str "sentenca"])
  , (str "replica",         [str "réplica", str "replica"])
  ]

/-- Fallback label `"outros"`. -/
def strOutros : Str := str "outros"

/-- `classify_page`: lower-case the page text and return the first label one
of whose keywords occurs as a substring; `"outros"` otherwise. -/
def classify_page (txt : Str) : Str :=
  let low := pyLower txt
  go PIECE_KWS low
where
  go : List (Str × List Str) → Str → Str
    | [], _ => strOutros
    | (lab, kws) :: rest, low =>
      if kws.any (fun kw => containsSub kw low) then lab else go rest low

/-- Label-keyed grouping structure, modelling the Python `dict` of lists in
insertion order. -/
abbrev Groups := List (Str × List Str)

/-- `groups.setdefault(k, []).append(v)`: append `v` to key `k`, creating the
key at the end on first use (Python dicts preserve insertion order). -/
def appendEntry (g : Groups) (k : Str) (v : Str) : Groups :=
  match g with
  | [] => [(k, [v])]
  | (k2, vs) :: rest =>
    if k = k2 then (k2, vs ++ [v]) :: rest else (k2, vs) :: appendEntry rest k v

/-- Loop state of `group_pages`: accumulated groups, current label (`cur`),
text buffer (`buf`). -/
structure GPSt where
  groups : Groups
  cur : Option Str
  buf : List Str

/-- The flush performed when the label changes (and after the loop):
`groups.setdefault(cur or "outros", []).append("\n".join(buf))` guarded by
`if buf`. -/
def gpFlush (st : GPSt) : Groups :=
  if st.buf = [] then st.groups
  else appendEntry st.groups (st.cur.getD strOutros) (joinNl st.buf)

/-- One iteration of the `group_pages` loop on page text `p`. -/
def gpStep (st : GPSt) (p : Str) : GPSt :=
  let lab := classify_page p
  if st.cur = some lab then { st with buf := st.buf ++ [p] }
  else { groups := gpFlush st, cur := some lab, buf := [p] }

/-- The grouping half of `group_pages`: fold the loop over the pages and
flush the remaining buffer.  (The process-number half is added in
`group_pages` below, after the extractor is defined.) -/
def group_pages_groups (pages : List Str) : Groups :=
  gpFlush (pages.foldl gpStep ⟨[], none, []⟩)

/-- Modelled from the spec: the chronological sequence of maximal runs of
consecutive same-labelled pages, each run carrying its label and its page
texts in order.  This is the specification-side characterisation against
which `group_pages_groups` is compared. -/
def mergeRun (r : Str × List Str) (rs : List (Str × List Str)) :
    List (Str × List Str) :=
  match rs with
  | [] => [r]
  | (l, ts) :: rest => if l = r.1 then (r.1, r.2 ++ ts) :: rest else r :: (l, ts) :: rest

def specRuns : List Str → List (Str × List Str)
  | [] => []
  | p :: ps => mergeRun (classify_page p, [p]) (specRuns ps)

/-- Folding the chronological runs into a label-keyed mapping. -/
def runFold (g : Groups) (rs : List (Str × List Str)) : Groups :=
  rs.foldl (fun g2 r => appendEntry g2 r.1 (joinNl r.2)) g

/-- All grouped texts of a mapping, in mapping order. -/
def flattenGroups (g : Groups) : List Str := g.flatMap (fun kv => kv.2)

-- ── lemmas relating the grouping loop to chronological runs ────────────────

theorem mergeRun_head (r : Str × List Str) (rs : List (Str × List Str)) :
    ∃ t rest, mergeRun r rs = (r.1, t) :: rest := by
  cases rs with
  | nil => exact ⟨r.2, [], by simp [mergeRun]⟩
  | cons hd rest =>
    obtain ⟨l, ts⟩ := hd
    by_cases h : l = r.1
    · exact ⟨r.2 ++ ts, rest, by simp [mergeRun, h]⟩
    · exact ⟨r.2, (l, ts) :: rest, by simp [mergeRun, h]⟩

theorem mergeRun_merge (l0 : Str) (buf : List Str) (p : Str)
    (rs : List (Str × List Str)) :
    mergeRun (l0, buf) (mergeRun (l0, [p]) rs) = mergeRun (l0, buf ++ [p]) rs := by
  cases rs with
  | nil => simp [mergeRun]
  | cons hd rest =>
    obtain ⟨l, ts⟩ := hd
    by_cases h : l = l0
    · subst h; simp [mergeRun]
    · simp [mergeRun, h]

theorem mergeRun_ne (l0 : Str) (buf : List Str) (xr : Str × List Str)
    (rs : List (Str × List Str)) (h : xr.1 ≠ l0) :
    mergeRun (l0, buf) (mergeRun xr rs) = (l0, buf) :: mergeRun xr rs := by
  obtain ⟨t, rest, he⟩ := mergeRun_head xr rs
  rw [he]
  simp [mergeRun, h]

theorem gpLoop_runs (pages : List Str) :
    ∀ g l0 buf, buf ≠ [] →
    gpFlush (pages.foldl gpStep ⟨g, some l0, buf⟩) =
      runFold g (mergeRun (l0, buf) (specRuns pages)) := by
  induction pages with
  | nil =>
    intro g l0 buf hb
    simp [gpFlush, hb, specRuns, mergeRun, runFold]
  | cons p ps ih =>
    intro g l0 buf hb
    rw [List.foldl_cons]
    by_cases h : l0 = classify_page p
    · have hstep : gpStep ⟨g, some l0, buf⟩ p = ⟨g, some l0, buf ++ [p]⟩ := by
        simp [gpStep, ← h]
      rw [hstep, ih g l0 (buf ++ [p]) (by simp)]
      show _ = runFold g (mergeRun (l0, buf) (mergeRun (classify_page p, [p]) (specRuns ps)))
      rw [← h, mergeRun_merge]
    · have hstep : gpStep ⟨g, some l0, buf⟩ p =
          ⟨appendEntry g l0 (joinNl buf), some (classify_page p), [p]⟩ := by
        simp [gpStep, gpFlush, hb, h]
      rw [hstep, ih _ (classify_page p) [p] (by simp)]
      show _ = runFold g (mergeRun (l0, buf) (mergeRun (classify_page p, [p]) (specRuns ps)))
      rw [mergeRun_ne l0 buf (classify_page p, [p]) (specRuns ps) (by simpa using Ne.symm h)]
      simp [runFold]

/-- The label-keyed mapping built by `group_pages` is exactly the fold of the
chronological maximal runs by `setdefault`-append. -/
theorem group_pages_eq_runFold (pages : List Str) :
    group_pages_groups pages = runFold [] (specRuns pages) := by
  cases pages with
  | nil => simp [group_pages_groups, gpFlush, specRuns, runFold]
  | cons p ps =>
    unfold group_pages_groups
    rw [List.foldl_cons]
    have hstep : gpStep ⟨[], none, []⟩ p = ⟨[], some (classify_page p), [p]⟩ := by
      simp [gpStep, gpFlush]
    rw [hstep, gpLoop_runs ps [] (classify_page p) [p] (by simp)]
    rfl

theorem flatten_appendEntry (g : Groups) (k : Str) (v : Str) :
    List.Perm (flattenGroups (appendEntry g k v)) (v :: flattenGroups g) := by
  induction g with
  | nil => simp [appendEntry, flattenGroups]
  | cons hd rest ih =>
    obtain ⟨k2, vs⟩ := hd
    by_cases h : k = k2
    · have he : appendEntry ((k2, vs) :: rest) k v = (k2, vs ++ [v]) :: rest := by
        simp [appendEntry, h]
      rw [he]
      show List.Perm ((vs ++ [v]) ++ flattenGroups rest) (v :: (vs ++ flattenGroups rest))
      have h1 : List.Perm ((vs ++ [v]) ++ flattenGroups rest)
          ((v :: vs) ++ flattenGroups rest) :=
        (List.perm_append_singleton v vs).append_right _
      exact h1
    · have he : appendEntry ((k2, vs) :: rest) k v = (k2, vs) :: appendEntry rest k v := by
        simp [appendEntry, h]
      rw [he]
      show List.Perm (vs ++ flattenGroups (appendEntry rest k v))
        (v :: (vs ++ flattenGroups rest))
      have h1 : List.Perm (vs ++ flattenGroups (appendEntry rest k v))
          (vs ++ (v :: flattenGroups rest)) := ih.append_left vs
      exact h1.trans List.perm_middle

theorem flatten_runFold (rs : List (Str × List Str)) :
    ∀ g, List.Perm (flattenGroups (runFold g rs))
      ((rs.map (fun r => joinNl r.2)) ++ flattenGroups g) := by
  induction rs with
  | nil => intro g; simp [runFold]
  | cons r rest ih =>
    intro g
    have h0 : runFold g (r :: rest) = runFold (appendEntry g r.1 (joinNl r.2)) rest := by
      simp [runFold]
    rw [h0]
    have h1 := ih (appendEntry g r.1 (joinNl r.2))
    have h2 : List.Perm
        ((rest.map (fun r2 => joinNl r2.2)) ++ flattenGroups (appendEntry g r.1 (joinNl r.2)))
        ((rest.map (fun r2 => joinNl r2.2)) ++ (joinNl r.2 :: flattenGroups g)) :=
      (flatten_appendEntry g r.1 (joinNl r.2)).append_left _
    have h3 : List.Perm
        ((rest.map (fun r2 => joinNl r2.2)) ++ (joinNl r.2 :: flattenGroups g))
        (joinNl r.2 :: ((rest.map (fun r2 => joinNl r2.2)) ++ flattenGroups g)) :=
      List.perm_middle
    have h4 := (h1.trans h2).trans h3
    simpa using h4

theorem mergeRun_flat (r : Str × List Str) (rs : List (Str × List Str)) :
    (mergeRun r rs).flatMap (fun x => x.2) = r.2 ++ rs.flatMap (fun x => x.2) := by
  cases rs with
  | nil => simp [mergeRun]
  | cons hd rest =>
    obtain ⟨l, ts⟩ := hd
    by_cases h : l = r.1
    · simp [mergeRun, h]
    · simp [mergeRun, h]

/-- The chronological runs partition the pages: concatenating the runs'
page-text lists restores the original page sequence. -/
theorem specRuns_flat (pages : List Str) :
    (specRuns pages).flatMap (fun r => r.2) = pages := by
  induction pages with
  | nil => simp [specRuns]
  | cons p ps ih => rw [specRuns, mergeRun_flat]; simp [ih]

theorem mem_mergeRun_ne (r : Str × List Str) (rs : List (Str × List Str))
    (hr : r.2 ≠ []) (hrs : ∀ x ∈ rs, x.2 ≠ []) :
    ∀ x ∈ mergeRun r rs, x.2 ≠ [] := by
  intro x hx
  cases rs with
  | nil =>
    simp [mergeRun] at hx
    subst hx; exact hr
  | cons hd rest =>
    obtain ⟨l, ts⟩ := hd
    by_cases h : l = r.1
    · have he : mergeRun r ((l, ts) :: rest) = (r.1, r.2 ++ ts) :: rest := by
        simp [mergeRun, h]
      rw [he] at hx
      rcases List.mem_cons.1 hx with h1 | h2
      · subst h1
        intro hcon
        exact hr (List.append_eq_nil.1 hcon).1
      · exact hrs x (List.mem_cons_of_mem _ h2)
    · have he : mergeRun r ((l, ts) :: rest) = r :: (l, ts) :: rest := by
        simp [mergeRun, h]
      rw [he] at hx
      rcases List.mem_cons.1 hx with h1 | h2
      · subst h1; exact hr
      · exact hrs x h2

/-- Every chronological run has at least one page. -/
theorem specRuns_snd_ne (pages : List Str) :
    ∀ x ∈ specRuns pages, x.2 ≠ [] := by
  induction pages with
  | nil => intro x hx; simp [specRuns] at hx
  | cons p ps ih =>
    intro x hx
    exact mem_mergeRun_ne (classify_page p, [p]) (specRuns ps) (by simp) ih x hx

theorem joinNl_append (xs ys : List Str) (hx : xs ≠ []) (hy : ys ≠ []) :
    joinNl (xs ++ ys) = joinNl xs ++ chNl :: joinNl ys := by
  induction xs with
  | nil => exact absurd rfl hx
  | cons a xs2 ih =>
    cases xs2 with
    | nil =>
      cases ys with
      | nil => exact absurd rfl hy
      | cons b ys2 => simp [joinNl]
    | cons a2 xs3 =>
      have h1 : joinNl ((a :: a2 :: xs3) ++ ys) = a ++ chNl :: joinNl ((a2 :: xs3) ++ ys) := by
        simp [joinNl]
      rw [h1, ih (by simp)]
      simp [joinNl]

/-- Joining already-joined nonempty chunks agrees with joining the
concatenation. -/
theorem joinNl_map_joinNl (rs : List (Str × List Str))
    (h : ∀ x ∈ rs, x.2 ≠ []) :
    joinNl (rs.map (fun r => joinNl r.2)) = joinNl (rs.flatMap (fun r => r.2)) := by
  induction rs with
  | nil => simp
  | cons r rest ih =>
    cases rest with
    | nil => simp [joinNl]
    | cons r2 rest2 =>
      have hne1 : r.2 ≠ [] := h r (by simp)
      have hne2 : ((r2 :: rest2).flatMap (fun x => x.2)) ≠ [] := by
        have hr2 : r2.2 ≠ [] := h r2 (by simp)
        simp only [List.flatMap_cons]
        intro hcon
        exact hr2 (List.append_eq_nil.1 hcon).1
      have hstep : joinNl ((r :: r2 :: rest2).map (fun x => joinNl x.2)) =
          joinNl r.2 ++ chNl :: joinNl ((r2 :: rest2).map (fun x => joinNl x.2)) := by
        simp [joinNl]
      rw [hstep, ih (fun x hx => h x (List.mem_cons_of_mem r hx))]
      have hflat : ((r :: r2 :: rest2).flatMap (fun x => x.2)) =
          r.2 ++ ((r2 :: rest2).flatMap (fun x => x.2)) := by simp
      rw [hflat, joinNl_append r.2 _ hne1 hne2]

-- ── C2: grouping invariants ────────────────────────────────────────────────

/-- C2 (counterexample): for the three pages labelled decisao, despacho,
decisao, the grouped texts of the label-keyed mapping, concatenated in
mapping order, do NOT restore the original page texts in order: the second
decisao run is stored under the earlier "decisao" key and therefore comes
out before the despacho page. -/
theorem c2_counterexample :
    joinNl (flattenGroups (group_pages_groups
      [str "decisao um", str "despacho x", str "decisao dois"])) ≠
    joinNl [str "decisao um", str "despacho x", str "decisao dois"] := by
  decide

/-- C2 (amended): `group_pages` groups the pages into maximal runs of
consecutive same-labelled pages — a label reappearing after an intervening
label starts a new entry of that label's list rather than merging — and the
grouped texts are exactly the chronological run texts up to permutation
(no loss, no duplication); concatenating the runs chronologically restores
the original page texts.  (Concatenating the label-keyed mapping in mapping
order does not preserve page order when a label reappears, per the
counterexample.) -/
theorem c2_grouping (pages : List Str) :
    group_pages_groups pages = runFold [] (specRuns pages) ∧
    List.Perm (flattenGroups (group_pages_groups pages))
      ((specRuns pages).map (fun r => joinNl r.2)) ∧
    joinNl ((specRuns pages).map (fun r => joinNl r.2)) = joinNl pages := by
  refine ⟨group_pages_eq_runFold pages, ?_, ?_⟩
  · rw [group_pages_eq_runFold pages]
    have h1 := flatten_runFold (specRuns pages) []
    simpa [flattenGroups] using h1
  · rw [joinNl_map_joinNl (specRuns pages) (specRuns_snd_ne pages), specRuns_flat]

-- ═══════════════════════ ProcessNumberExtractor ═══════════════════════════
-- Source: src/backend/preprocessing/process_report_pipeline.py lines 56-103
-- (`extract_process_number`) and src/backend/main.py lines 177-220
-- (`extrair_numero_processo`).  The regular expressions are embedded as
-- specialised scanners with leftmost-match semantics; alternations whose
-- branches start with distinct literals are committed in order, which agrees
-- with the backtracking engine on these patterns.

/-- One token of a fixed-shape numeric pattern: a digit class or a literal
character. -/
inductive Tok where
  | d : Tok
  | c : Char → Tok
deriving DecidableEq

/-- `n` copies of the digit token (`\d{n}`). -/
def dRep (n : Nat) : List Tok := List.replicate n .d

/-- `\d{7}-\d{2}\.\d{4}\.\d{1}\.\d{2}\.\d{4}` -/
def cnj7Shape : List Tok :=
  dRep 7 ++ [.c '-'] ++ dRep 2 ++ [.c '.'] ++ dRep 4 ++ [.c '.'] ++ dRep 1 ++
    [.c '.'] ++ dRep 2 ++ [.c '.'] ++ dRep 4

/-- `\d{10}-\d{2}\.\d{4}\.\d{1}\.\d{2}\.\d{4}` -/
def cnj10Shape : List Tok :=
  dRep 10 ++ [.c '-'] ++ dRep 2 ++ [.c '.'] ++ dRep 4 ++ [.c '.'] ++ dRep 1 ++
    [.c '.'] ++ dRep 2 ++ [.c '.'] ++ dRep 4

/-- `\d{4}\.\d{2}\.\d{6}-\d{1}` (legacy dotted format). -/
def legacyShape : List Tok :=
  dRep 4 ++ [.c '.'] ++ dRep 2 ++ [.c '.'] ++ dRep 6 ++ [.c '-'] ++ dRep 1

/-- `-\d{2}\.\d{4}\.\d{1}\.\d{2}\.\d{4}`: the CNJ tail after the leading
digit run (used by main.py's `\d{7,10}-...` validation). -/
def cnjTailShape : List Tok :=
  [.c '-'] ++ dRep 2 ++ [.c '.'] ++ dRep 4 ++ [.c '.'] ++ dRep 1 ++
    [.c '.'] ++ dRep 2 ++ [.c '.'] ++ dRep 4

/-- Match a shape at the head of `s`; returns the rest on success. -/
def matchToks : List Tok → Str → Option Str
  | [], s => some s
  | .d :: sh, c :: s => if c.isDigit then matchToks sh s else none
  | .c a :: sh, c :: s => if c = a then matchToks sh s else none
  | _ :: _, [] => none

/-- Match a shape at the head of `s` and return the matched characters. -/
def takeShape (sh : List Tok) (s : Str) : Option Str :=
  (matchToks sh s).map (fun _ => s.take sh.length)

/-- Word-boundary side conditions for `\b`. -/
def prevOk : Option Char → Bool
  | none => true
  | some c => !isWordChar c

def headNonWord : Str → Bool
  | [] => true
  | c :: _ => !isWordChar c

/-- Scan `s` left to right, trying the positional matcher `f` at every
position (leftmost match wins); `f` receives the previous character for
word-boundary checks. -/
def scanFind (f : Option Char → Str → Option Str) : Option Char → Str → Option Str
  | _, [] => none
  | prev, c :: rest =>
    match f prev (c :: rest) with
    | some r => some r
    | none => scanFind f (some c) rest

/-- Leftmost occurrence of a `\b`-delimited fixed shape. -/
def findShapeB (sh : List Tok) (s : Str) : Option Str :=
  scanFind (fun prev t =>
    if prevOk prev then
      match matchToks sh t with
      | some rest => if headNonWord rest then some (t.take sh.length) else none
      | none => none
    else none) none s

/-- `\s*`: drop a maximal whitespace run. -/
def dropWs (s : Str) : Str := s.dropWhile isWs

/-- `\s+`: at least one whitespace character, consumed maximally. -/
def ws1 : Str → Option Str
  | [] => none
  | c :: rest => if isWs c then some (dropWs rest) else none

/-- Case-insensitive literal (ASCII case folding; literals are given in
lower case). -/
def litCIP (lit : Str) (s : Str) : Option Str :=
  match lit, s with
  | [], s2 => some s2
  | _ :: _, [] => none
  | a :: as2, c :: cs => if Char.toLower c = a then litCIP as2 cs else none

/-- Ordered alternation of literals (branches start with distinct characters
in all the patterns used, so committing to the first literal match agrees
with the regex engine). -/
def litAlt (lits : List Str) (s : Str) : Option Str :=
  match lits with
  | [] => none
  | l :: ls =>
    match litCIP l s with
    | some r => some r
    | none => litAlt ls s

/-- `a?`: optionally consume one specific character. -/
def optC (a : Char) : Str → Str
  | [] => []
  | c :: rest => if c = a then rest else c :: rest

/-- `[º°]?` and similar: optionally consume one character from a set. -/
def optAny (as2 : List Char) : Str → Str
  | [] => []
  | c :: rest => if c ∈ as2 then rest else c :: rest

/-- `\s*:?\s*` (deterministic here because what follows begins with a
digit, disjoint from whitespace and `:`). -/
def sepColon (s : Str) : Str := dropWs (optC ':' (dropWs s))

/-- `\s+n[º°]?\.?\s*`. -/
def sepNdeg (s : Str) : Option Str :=
  match ws1 s with
  | none => none
  | some r1 =>
    match r1 with
    | [] => none
    | c :: rest =>
      if Char.toLower c = 'n' then
        some (dropWs (optC '.' (optAny ['º', '°'] rest)))
      else none

/-- Capture group `(\d{7}-\d{2}\.\d{4}\.\d{1}\.\d{2}\.\d{4})`. -/
def capCnj7 (s : Str) : Option Str := takeShape cnj7Shape s

/-- Pattern 4 of the pipeline extractor:
`(?:número|processo|autos)(?:\s*:?\s*|\s+n[º°]?\.?\s*)(cnj7)`. -/
def p3At (s : Str) : Option Str :=
  match litAlt [str "número", str "processo", str "autos"] s with
  | none => none
  | some rest =>
    match capCnj7 (sepColon rest) with
    | some n => some n
    | none =>
      match sepNdeg rest with
      | some rest2 => capCnj7 rest2
      | none => none

/-- Greedy capture `(\d+[-\.\d]+)`: the maximal run of digits/dots/hyphens
starting with a digit, of length at least 2. -/
def digitRunCap (s : Str) : Option Str :=
  match s with
  | [] => none
  | c :: _ =>
    if c.isDigit then
      let run := s.takeWhile (fun x => x.isDigit || x = '.' || x = '-')
      if 2 ≤ run.length then some run else none
    else none

/-- Pattern 5 of the pipeline extractor:
`(?:processo|autos)(?:\s+n[º°]?\.?\s*|\s+)(\d+[-\.\d]+)`. -/
def p4At (s : Str) : Option Str :=
  match litAlt [str "processo", str "autos"] s with
  | none => none
  | some rest =>
    match sepNdeg rest with
    | some rest2 =>
      match digitRunCap rest2 with
      | some n => some n
      | none =>
        match ws1 rest with
        | some rest3 => digitRunCap rest3
        | none => none
    | none =>
      match ws1 rest with
      | some rest3 => digitRunCap rest3
      | none => none

/-- Pattern 6 of the pipeline extractor:
`processo\s+eletr[ôo]nico\s+n[º°]?\s*(cnj7)`. -/
def p5At (s : Str) : Option Str :=
  match litCIP (str "processo") s with
  | none => none
  | some r1 =>
    match ws1 r1 with
    | none => none
    | some r2 =>
      match litCIP (str "eletr") r2 with
      | none => none
      | some r3 =>
        match r3 with
        | [] => none
        | c :: r4 =>
          if Char.toLower c = 'ô' ∨ Char.toLower c = 'o' then
            match litCIP (str "nico") r4 with
            | none => none
            | some r5 =>
              match ws1 r5 with
              | none => none
              | some r6 =>
                match r6 with
                | [] => none
                | c2 :: r7 =>
                  if Char.toLower c2 = 'n' then
                    capCnj7 (dropWs (optAny ['º', '°'] r7))
                  else none
          else none

def findP0 (s : Str) : Option Str := findShapeB cnj7Shape s
def findP1 (s : Str) : Option Str := findShapeB cnj10Shape s
def findP2 (s : Str) : Option Str := findShapeB legacyShape s
def findP3 (s : Str) : Option Str := scanFind (fun _ t => p3At t) none s
def findP4 (s : Str) : Option Str := scanFind (fun _ t => p4At t) none s
def findP5 (s : Str) : Option Str := scanFind (fun _ t => p5At t) none s

/-- The acceptance checks of `extract_process_number`: prefix match of the
CNJ 7-digit reconstruction pattern, prefix match of the 10-digit variant, or
length greater than 10. -/
def pipeAccept (n : Str) : Bool :=
  (matchToks cnj7Shape n).isSome || (matchToks cnj10Shape n).isSome ||
    decide (10 < n.length)

/-- The pattern loop shared by both extractors: first regex match of each
pattern in order; a match failing the acceptance check is discarded and the
loop proceeds to the next pattern. -/
def tryPats (accept : Str → Bool) : List (Str → Option Str) → Str → Option Str
  | [], _ => none
  | f :: fs, s =>
    match f s with
    | some n => if accept n then some n else tryPats accept fs s
    | none => tryPats accept fs s

def pipelinePats : List (Str → Option Str) :=
  [findP0, findP1, findP2, findP3, findP4, findP5]

/-- `extract_process_number` (pipeline): empty text yields none; otherwise
lower-case the text and run the ordered pattern list with the acceptance
checks, over the whole given text. -/
def extract_process_number (t : Str) : Option Str :=
  if t = [] then none
  else tryPats pipeAccept pipelinePats (pyLower t)

/-- Pattern 3 of main.py's extractor: `(?:número|n[º°])\s*:?\s*(cnj7)`. -/
def q2At (s : Str) : Option Str :=
  match litCIP (str "número") s with
  | some r => capCnj7 (sepColon r)
  | none =>
    match s with
    | [] => none
    | c :: rest =>
      if Char.toLower c = 'n' then
        match rest with
        | [] => none
        | c2 :: r2 =>
          if c2 = 'º' ∨ c2 = '°' then capCnj7 (sepColon r2) else none
      else none

/-- Pattern 5 of main.py's extractor:
`(?:processo|autos)(?:\s+n[º°]?\.?\s*|\s*:?\s*)(cnj7)`. -/
def q4At (s : Str) : Option Str :=
  match litAlt [str "processo", str "autos"] s with
  | none => none
  | some rest =>
    match sepNdeg rest with
    | some r2 =>
      match capCnj7 r2 with
      | some n => some n
      | none => capCnj7 (sepColon rest)
    | none => capCnj7 (sepColon rest)

def findQ2 (s : Str) : Option Str := scanFind (fun _ t => q2At t) none s
def findQ4 (s : Str) : Option Str := scanFind (fun _ t => q4At t) none s

/-- Number of leading digits of `n`. -/
def leadDigits (s : Str) : Nat := (s.takeWhile Char.isDigit).length

/-- main.py's validation `re.match(r'\d{7,10}-\d{2}\.\d{4}\.\d{1}\.\d{2}\.\d{4}', n)`
(anchored at the start, tail unconstrained). -/
def mainValidate (n : Str) : Bool :=
  let L := leadDigits n
  decide (7 ≤ L) && decide (L ≤ 10) && (matchToks cnjTailShape (n.drop L)).isSome

def mainPats : List (Str → Option Str) := [findP0, findP1, findQ2, findP2, findQ4]

/-- One pass of main.py's pattern loop over a given text. -/
def mainSearch (s : Str) : Option Str := tryPats mainValidate mainPats s

/-- `'\n'.join(texto.split('\n')[:20])`: the first-20-lines window. -/
def win20 (t : Str) : Str := joinNl ((splitNl t).take 20)

/-- `extrair_numero_processo` (main.py): run the pattern loop on the
first-20-lines window, falling back to the full text. -/
def extrair_numero_processo (t : Str) : Option Str :=
  match mainSearch (win20 t) with
  | some n => some n
  | none => mainSearch t

/-- Modelled from the spec: window-first application of the *pipeline*
extractor's ordered pattern list — the behaviour the claim attributes to the
process-number extractor (apply the patterns to the first ~20 lines, fall
back to the full text only when nothing is accepted there).  The pipeline's
`extract_process_number` has no such window; this definition exists to be
compared against it. -/
def specWindowedExtract (t : Str) : Option Str :=
  match extract_process_number (win20 t) with
  | some n => some n
  | none => extract_process_number t

/-- Full match against one of the defined format families (the strict
reconstruction patterns: CNJ 7-digit, CNJ 10-digit, legacy dotted). -/
def matchesFamily (n : Str) : Bool :=
  (matchToks cnj7Shape n == some []) || (matchToks cnj10Shape n == some []) ||
    (matchToks legacyShape n == some [])

-- ── soundness of the pattern loops ─────────────────────────────────────────

theorem tryPats_accept (accept : Str → Bool) (fs : List (Str → Option Str)) (s : Str) :
    ∀ n, tryPats accept fs s = some n → accept n = true := by
  induction fs with
  | nil => intro n h; simp [tryPats] at h
  | cons f fs2 ih =>
    intro n h
    unfold tryPats at h
    cases hf : f s with
    | none => rw [hf] at h; exact ih n h
    | some m =>
      rw [hf] at h
      by_cases ha : accept m
      · simp only [ha, if_true] at h
        rw [← Option.some.inj h]
        exact ha
      · simp only [ha, if_false, Bool.false_eq_true] at h
        exact ih n h

-- ── C4: validation of extracted process numbers ────────────────────────────

/-- C4 (counterexample): on the text "processo 123456789012" the pipeline
extractor returns "123456789012" via the generic pattern
`(?:processo|autos)...(\d+[-\.\d]+)` and the lax length-over-10 acceptance,
yet that string matches none of the strict reconstruction patterns of the
defined format families. -/
theorem c4_counterexample :
    extract_process_number (str "processo 123456789012") =
      some (str "123456789012") ∧
    matchesFamily (str "123456789012") = false := by
  constructor
  · decide
  · decide

/-- C4 (amended): every string returned by the pipeline extractor passes its
own lax acceptance check (CNJ 7-digit prefix, CNJ 10-digit prefix, or length
greater than 10) — but not necessarily a format-family match — while every
string returned by main.py's report-text extractor passes the strict CNJ
validation pattern `\d{7,10}-\d{2}\.\d{4}\.\d{1}\.\d{2}\.\d{4}`. -/
theorem c4_validation_soundness :
    (∀ t n, extract_process_number t = some n → pipeAccept n = true) ∧
    (∀ t n, extrair_numero_processo t = some n → mainValidate n = true) := by
  constructor
  · intro t n h
    unfold extract_process_number at h
    by_cases ht : t = []
    · simp [ht] at h
    · rw [if_neg ht] at h
      exact tryPats_accept pipeAccept pipelinePats (pyLower t) n h
  · intro t n h
    unfold extrair_numero_processo at h
    cases hw : mainSearch (win20 t) with
    | some m =>
      rw [hw] at h
      rw [← Option.some.inj h]
      exact tryPats_accept mainValidate mainPats (win20 t) m hw
    | none =>
      rw [hw] at h
      exact tryPats_accept mainValidate mainPats t n h

theorem c4_validation_soundness_witness :
    pipeAccept (str "1234567-89.2012.8.17.0001") = true ∧
    mainValidate (str "1234567-89.2012.8.17.0001") = true :=
  ⟨c4_validation_soundness.1 (str "hoje, processo nº 1234567-89.2012.8.17.0001")
      (str "1234567-89.2012.8.17.0001") (by decide),
   c4_validation_soundness.2 (str "hoje, processo nº 1234567-89.2012.8.17.0001")
      (str "1234567-89.2012.8.17.0001") (by decide)⟩

/-- `group_pages` proper: grouping plus the process number extracted from the
first page only (the `i == 0` branch of the loop). -/
def group_pages (pages : List Str) : Groups × Option Str :=
  (group_pages_groups pages,
   match pages with
   | [] => none
   | p :: _ => extract_process_number p)

-- ── C8: window-first pattern application ───────────────────────────────────

/-- C8 (amended, main.py part): the report-text extractor is window-first —
whenever the pattern loop accepts a match inside the first-20-lines window,
the result is fully determined by that window (text beyond the window is
never consulted), and when the window yields nothing the extractor equals
the full-text pattern loop. -/
theorem c8_window_first :
    (∀ t1 t2, win20 t1 = win20 t2 → mainSearch (win20 t1) ≠ none →
      extrair_numero_processo t1 = extrair_numero_processo t2) ∧
    (∀ t, mainSearch (win20 t) = none →
      extrair_numero_processo t = mainSearch t) := by
  constructor
  · intro t1 t2 hw hn
    unfold extrair_numero_processo
    rw [hw] at hn ⊢
    cases h2 : mainSearch (win20 t2) with
    | none => exact absurd h2 hn
    | some n => simp [h2]
  · intro t h
    unfold extrair_numero_processo
    rw [h]

theorem c8_window_first_witness :
    extrair_numero_processo (str "nº 1234567-89.2012.8.17.0001\nz") =
      extrair_numero_processo (str "nº 1234567-89.2012.8.17.0001\nz") ∧
    extrair_numero_processo (str "xx") = mainSearch (str "xx") :=
  ⟨c8_window_first.1 (str "nº 1234567-89.2012.8.17.0001\nz")
      (str "nº 1234567-89.2012.8.17.0001\nz") rfl (by decide),
   c8_window_first.2 (str "xx") (by decide)⟩

/-- Concrete text whose first 20 lines contain a legacy-format number and
whose line 22 contains a CNJ-format number. -/
def strC8input : Str :=
  str "1234.56.789012-3\nx\nx\nx\nx\nx\nx\nx\nx\nx\nx\nx\nx\nx\nx\nx\nx\nx\nx\nx\nx\n1234567-89.2012.8.17.0001"

/-- C8 (counterexample): the pipeline extractor searches its whole input in
one pass, with no 20-line window: on `strC8input` it returns the CNJ number
found beyond line 20 (its highest-priority pattern), whereas the window-first
procedure the claim describes would accept the legacy number inside the
window and never fall back. -/
theorem c8_counterexample :
    extract_process_number strC8input = some (str "1234567-89.2012.8.17.0001") ∧
    specWindowedExtract strC8input = some (str "1234.56.789012-3") ∧
    str "1234567-89.2012.8.17.0001" ≠ str "1234.56.789012-3" := by
  refine ⟨by decide, by decide, by decide⟩

-- ═══════════════════════ clean_textblock_artifacts ════════════════════════
-- Source: src/backend/preprocessing/process_report_pipeline.py lines 395-419.
-- Each `re.sub` becomes a left-to-right non-overlapping scanner.

def chQuote : Char := Char.ofNat 39

/-- Case-sensitive literal at the head, returning the rest. -/
def litPrefix (lit : Str) (s : Str) : Option Str :=
  if lit.isPrefixOf s then some (s.drop lit.length) else none

/-- A substitution attempt at the current position: on success, the
replacement text and the rest of the input after the match. -/
abbrev SubTry := Str → Option (Str × Str)

def scanSubGo (try1 : SubTry) : Nat → Str → Str
  | 0, s => s
  | _ + 1, [] => []
  | fuel + 1, c :: rest =>
    match try1 (c :: rest) with
    | some (rep, after) =>
      if after.length < rest.length + 1 then rep ++ scanSubGo try1 fuel after
      else c :: scanSubGo try1 fuel rest
    | none => c :: scanSubGo try1 fuel rest

/-- Non-overlapping global substitution, scanning left to right (every match
of the patterns below consumes at least one character, so a fuel of the
input length always suffices). -/
def scanSub (try1 : SubTry) (s : Str) : Str := scanSubGo try1 s.length s

/-- `TextBlock\([^)]*\)` → `''`. -/
def tryTextBlockParen : SubTry := fun s =>
  match litPrefix (str "TextBlock(") s with
  | none => none
  | some r =>
    let body := r.takeWhile (fun c => !(c = ')'))
    match r.drop body.length with
    | c :: rest2 => if c = ')' then some ([], rest2) else none
    | [] => none

/-- `\[TextBlock\([^]]*\)\]` → `''`. -/
def tryBracketTextBlock : SubTry := fun s =>
  match litPrefix (str "[TextBlock(") s with
  | none => none
  | some r =>
    let body := r.takeWhile (fun c => !(c = ']'))
    match r.drop body.length with
    | c :: rest2 =>
      if c = ']' then
        match body.reverse with
        | b :: _ => if b = ')' then some ([], rest2) else none
        | [] => none
      else none
    | [] => none

/-- `citations=None,\s*text=` → `''`. -/
def tryCitNone : SubTry := fun s =>
  match litPrefix (str "citations=None,") s with
  | none => none
  | some r =>
    match litPrefix (str "text=") (dropWs r) with
    | some r2 => some ([], r2)
    | none => none

/-- `citations=[^,]*,\s*text=` → `''`. -/
def tryCitAny : SubTry := fun s =>
  match litPrefix (str "citations=") s with
  | none => none
  | some r =>
    let body := r.takeWhile (fun c => !(c = ','))
    match r.drop body.length with
    | c :: rest2 =>
      if c = ',' then
        match litPrefix (str "text=") (dropWs rest2) with
        | some r2 => some ([], r2)
        | none => none
      else none
    | [] => none

/-- The literal `type='text'`. -/
def strTypeText : Str := str "type=" ++ [chQuote] ++ str "text" ++ [chQuote]

/-- `type='text'` → `''`. -/
def tryTypeText : SubTry := fun s =>
  match litPrefix strTypeText s with
  | some r => some ([], r)
  | none => none

/-- `text.strip('"\'')`: strip quote characters from both ends. -/
def stripQuotes (s : Str) : Str :=
  dropTrailWhile (fun c => c = '"' || c = chQuote)
    (s.dropWhile (fun c => c = '"' || c = chQuote))

/-- `\n{3,}` → `'\n\n'`. -/
def tryNl3 : SubTry := fun s =>
  let run := s.takeWhile (fun c => c = chNl)
  if 3 ≤ run.length then some ([chNl, chNl], s.drop run.length) else none

/-- `clean_textblock_artifacts`: strip backend-artifact markup. -/
def clean_textblock_artifacts (t : Str) : Str :=
  if t = [] then []
  else
    let t1 := scanSub tryTextBlockParen t
    let t2 := scanSub tryBracketTextBlock t1
    let t3 := scanSub tryCitNone t2
    let t4 := scanSub tryCitAny t3
    let t5 := scanSub tryTypeText t4
    let t6 := stripQuotes t5
    let t7 := scanSub tryNl3 t6
    pyStrip t7

-- ═══════════════════════ ReportBuilder (build_report) ═════════════════════
-- Source: src/backend/preprocessing/process_report_pipeline.py lines 358-393.
-- The single report-model call is modelled by the `resp` oracle outcome
-- (`Except.ok` = returned text, `Except.error` = raised exception); the
-- instruction-template text only parameterises that call and plays no role
-- in the post-processing being verified.

def strProcessoNum : Str := str "Processo nº "
def strNlNl : Str := [chNl, chNl]
def strStub : Str :=
  str "Relatório: Processo analisado com base nos atos processuais fornecidos."

/-- `build_report`: on success, strip the returned text and prepend
`"Processo nº {n}"` unless the stripped text already starts with it; on
backend failure, return the synthetic stub report embedding the raw
summaries (`atos`).  An empty `process_number` string is falsy in Python and
behaves like `None`. -/
def build_report (atos : Str) (pn : Option Str) (resp : Except Str Str) : Str :=
  match resp with
  | .ok content =>
    match pn with
    | some p =>
      if p = [] then pyStrip content
      else
        let pref := strProcessoNum ++ p
        if pref.isPrefixOf (pyStrip content) then pyStrip content
        else pyStrip (pref ++ strNlNl ++ pyStrip content)
    | none => pyStrip content
  | .error _ =>
    match pn with
    | some p =>
      if p = [] then strStub ++ strNlNl ++ atos
      else strProcessoNum ++ p ++ strNlNl ++ strStub ++ strNlNl ++ atos
    | none => strStub ++ strNlNl ++ atos

-- ── helper lemmas for C9 ───────────────────────────────────────────────────

theorem dropWhile_append_all (p : Char → Bool) (a b : Str)
    (ha : ∀ c ∈ a, p c = true) : (a ++ b).dropWhile p = b.dropWhile p := by
  induction a with
  | nil => simp
  | cons x xs ih =>
    have hx : p x = true := ha x (by simp)
    simp only [List.cons_append, List.dropWhile, hx]
    exact ih (fun c hc => ha c (by simp [hc]))

theorem dropTrailWhile_append_all (p : Char → Bool) (s w : Str)
    (hw : ∀ c ∈ w, p c = true) : dropTrailWhile p (s ++ w) = dropTrailWhile p s := by
  unfold dropTrailWhile
  rw [List.reverse_append, dropWhile_append_all p w.reverse s.reverse
    (fun c hc => hw c (by simpa using hc))]

-- ── C9: report starts with the process-number line ─────────────────────────

/-- C9: for every summaries text, backend outcome and present (nonempty,
already-stripped — the form every extracted process number has) process
number `p`, the report built by `build_report` starts with
`"Processo nº {p}"`; and when the backend's returned text already starts
with that line, the text is returned unchanged (the line is not
duplicated). -/
theorem c9_processo_line (atos : Str) (p : Str) (resp : Except Str Str)
    (hne : p ≠ []) (hstrip : pyStrip p = p) :
    (strProcessoNum ++ p) <+: build_report atos (some p) resp ∧
    (∀ content, (strProcessoNum ++ p).isPrefixOf (pyStrip content) = true →
      build_report atos (some p) (.ok content) = pyStrip content) := by
  obtain ⟨ps, q, hpq, hq⟩ : ∃ ps q, p = ps ++ [q] ∧ isWs q = false := by
    rcases List.eq_nil_or_concat' p with h | ⟨ps, q, hpq⟩
    · exact absurd h hne
    · exact ⟨ps, q, hpq, pyStrip_last_not_ws p q ps (by rw [hstrip, hpq])⟩
  constructor
  · cases resp with
    | error e =>
      have he : build_report atos (some p) (.error e) =
          (strProcessoNum ++ p) ++ (strNlNl ++ strStub ++ strNlNl ++ atos) := by
        simp [build_report, hne]
      rw [he]
      exact List.prefix_append _ _
    | ok content =>
      by_cases hpre : (strProcessoNum ++ p).isPrefixOf (pyStrip content)
      · have he : build_report atos (some p) (.ok content) = pyStrip content := by
          simp [build_report, hne, hpre]
        rw [he]
        exact List.isPrefixOf_iff_prefix.mp hpre
      · have he : build_report atos (some p) (.ok content) =
            pyStrip ((strProcessoNum ++ p) ++ strNlNl ++ pyStrip content) := by
          simp [build_report, hne, hpre]
        rw [he]
        have hPhead : strProcessoNum = 'P' :: str "rocesso nº " := by decide
        rcases List.eq_nil_or_concat' (pyStrip content) with hc | ⟨cs, y, hcy⟩
        · -- empty stripped content: the trailing "\n\n" is stripped away and
          -- the result is exactly the prefix line
          rw [hc]
          have hshape : (strProcessoNum ++ p) ++ strNlNl ++ ([] : Str) =
              ('P' :: (str "rocesso nº " ++ ps ++ [q])) ++ strNlNl := by
            rw [hPhead, hpq]; simp
          rw [hshape]
          have hfront : (('P' :: (str "rocesso nº " ++ ps ++ [q])) ++ strNlNl).dropWhile isWs
              = ('P' :: (str "rocesso nº " ++ ps ++ [q])) ++ strNlNl := by
            apply dropWhile_eq_self_of_head
            decide
          have hws : ∀ c ∈ strNlNl, isWs c = true := by decide
          unfold pyStrip
          rw [hfront, dropTrailWhile_append_all isWs _ strNlNl hws]
          have htail : 'P' :: (str "rocesso nº " ++ ps ++ [q]) =
              ('P' :: (str "rocesso nº " ++ ps)) ++ [q] := by simp
          rw [htail, dropTrailWhile_eq_self isWs _ q hq]
          rw [hpq, hPhead]
          exact ⟨[], by simp⟩
        · -- nonempty stripped content ending in a non-whitespace character
          have hy : isWs y = false := pyStrip_last_not_ws content y cs hcy
          have hshape : (strProcessoNum ++ p) ++ strNlNl ++ pyStrip content =
              'P' :: ((str "rocesso nº " ++ p ++ strNlNl ++ cs) ++ [y]) := by
            rw [hPhead, hcy]; simp
          rw [hshape, pyStrip_eq_self 'P' _ y (by decide) hy, ← hshape]
          exact ⟨strNlNl ++ pyStrip content, by simp⟩
  · intro content hpre
    simp [build_report, hne, hpre]

theorem c9_processo_line_witness :
    (strProcessoNum ++ str "0001234-56.2020.8.17.0001") <+:
      build_report (str "atos do caso") (some (str "0001234-56.2020.8.17.0001"))
        (.ok (str "relatório do caso")) :=
  (c9_processo_line (str "atos do caso") (str "0001234-56.2020.8.17.0001")
    (.ok (str "relatório do caso")) (by decide) (by decide)).1

-- ═══════════════════════ ChunkSummarizer & generate ═══════════════════════
-- Source: src/backend/preprocessing/process_report_pipeline.py lines 422-542.
-- The summary and report backends are oracles; the nondeterministic order in
-- which `as_completed` yields the futures is an explicit `completion`
-- parameter (a list of indices into the submitted chunk list).

/-- `Config.fallback_chars` default (`FALLBACK_CHARS`, 10000). -/
def cfgFallbackChars : Nat := 10000

/-- `[texto[i:i+n] for i in range(0, len(texto), n)]`. -/
def sliceChunks (n : Nat) (t : Str) : List Str :=
  if h : t = [] ∨ n = 0 then []
  else t.take n :: sliceChunks n (t.drop n)
termination_by t.length
decreasing_by
  push_neg at h
  have h1 : 0 < t.length := List.length_pos.mpr h.1
  have h2 : 0 < n := Nat.pos_of_ne_zero h.2
  simp only [List.length_drop]
  omega

/-- The chunk list `chunks_para_resumir`: per group (in mapping order), join
the group's blocks with newlines and slice into `fallback_chars`-sized parts
when strictly longer than `fallback_chars`. -/
def chunksFor (fallback : Nat) (g : Groups) : List (Str × Str) :=
  g.flatMap (fun kv =>
    let texto := joinNl kv.2
    let parts := if fallback < texto.length then sliceChunks fallback texto
      else [texto]
    parts.map (fun part => (kv.1, part)))

/-- Sequencing the future results in the order they are read: the first
raised exception propagates (re-raised by `fut.result()`). -/
def collectRes : List (Except Str Str) → Except Str (List Str)
  | [] => .ok []
  | .error e :: _ => .error e
  | .ok s :: rest => (collectRes rest).map (fun l => s :: l)

/-- One `_job` per chunk: `clean_textblock_artifacts(summary_llm.predict(texto))`. -/
def summaryJobs (oracle : Str → Except Str Str) (chunks : List (Str × Str)) :
    List (Except Str Str) :=
  chunks.map (fun lt => (oracle lt.2).map clean_textblock_artifacts)

/-- The `for fut in as_completed(futures): linhas.append(fut.result())` loop:
results are appended in completion order `ord`, not submission order. -/
def collectByCompletion (jobs : List (Except Str Str)) (ord : List Nat) :
    Except Str (List Str) :=
  collectRes (ord.filterMap (fun i => jobs[i]?))

/-- Oracle environment of one `generate` call. -/
structure GenEnv where
  loadPages : Except Str (List Str)
  summaryOracle : Str → Except Str Str
  reportOracle : Except Str Str
  completion : List Nat

/-- The digest-keyed cache store (`/tmp/report_{digest}.txt` files). -/
abbrev Cache := List (Str × Str)

def lookupC : Cache → Str → Option Str
  | [], _ => none
  | (k, v) :: rest, d => if d = k then some v else lookupC rest d

def strErro (e : Str) : Str := str "Erro no processamento: " ++ e

/-- `generate`: digest-keyed cache check first; on a miss, load the pages,
group them, slice into chunks, summarize concurrently (results gathered in
completion order), concatenate, build the report, clean it, persist it under
the digest and return it.  The third component counts backend invocations
(chunk summarization calls plus the report-build call); any exception
reaching the outer handler yields an error string and leaves the cache
untouched.  Result: (returned text, cache after the call, backend calls). -/
def generate (digestFn : List Nat → Str) (env : GenEnv) (cache : Cache)
    (pdfBytes : List Nat) : Str × Cache × Nat :=
  match lookupC cache (digestFn pdfBytes) with
  | some r => (r, cache, 0)
  | none =>
    match env.loadPages with
    | .error e => (strErro e, cache, 0)
    | .ok pages =>
      match collectByCompletion
          (summaryJobs env.summaryOracle
            (chunksFor cfgFallbackChars (group_pages pages).1))
          env.completion with
      | .error e =>
        (strErro e, cache, (chunksFor cfgFallbackChars (group_pages pages).1).length)
      | .ok linhas =>
        let limpo := clean_textblock_artifacts
          (build_report (joinNl linhas) (group_pages pages).2 env.reportOracle)
        (limpo, (digestFn pdfBytes, limpo) :: cache,
          (chunksFor cfgFallbackChars (group_pages pages).1).length + 1)

theorem lookupC_insert (cache : Cache) (d : Str) (v : Str) :
    lookupC ((d, v) :: cache) d = some v := by simp [lookupC]

theorem generate_hit (digestFn : List Nat → Str) (env : GenEnv) (cache : Cache)
    (pdfBytes : List Nat) (r : Str)
    (h : lookupC cache (digestFn pdfBytes) = some r) :
    generate digestFn env cache pdfBytes = (r, cache, 0) := by
  unfold generate
  rw [h]

theorem collectRes_all_ok (l : List (Except Str Str))
    (h : ∀ j ∈ l, ∃ s, j = .ok s) : ∃ v, collectRes l = .ok v := by
  induction l with
  | nil => exact ⟨[], rfl⟩
  | cons j rest ih =>
    obtain ⟨s, hs⟩ := h j (by simp)
    obtain ⟨v, hv⟩ := ih (fun x hx => h x (by simp [hx]))
    subst hs
    exact ⟨s :: v, by simp [collectRes, hv, Except.map]⟩

theorem collectByCompletion_ok (jobs : List (Except Str Str)) (ord : List Nat)
    (h : ∀ j ∈ jobs, ∃ s, j = .ok s) :
    ∃ v, collectByCompletion jobs ord = .ok v := by
  apply collectRes_all_ok
  intro j hj
  obtain ⟨i, hi⟩ := List.mem_filterMap.mp hj
  exact h j (List.getElem?_mem hi.2)

theorem generate_miss_success (digestFn : List Nat → Str) (env : GenEnv)
    (cache : Cache) (pdfBytes : List Nat) (pages : List Str) (linhas : List Str)
    (h1 : lookupC cache (digestFn pdfBytes) = none)
    (h2 : env.loadPages = .ok pages)
    (hc : collectByCompletion
        (summaryJobs env.summaryOracle
          (chunksFor cfgFallbackChars (group_pages pages).1))
        env.completion = .ok linhas) :
    generate digestFn env cache pdfBytes =
      (clean_textblock_artifacts
        (build_report (joinNl linhas) (group_pages pages).2 env.reportOracle),
       (digestFn pdfBytes,
        clean_textblock_artifacts
          (build_report (joinNl linhas) (group_pages pages).2 env.reportOracle)) :: cache,
       (chunksFor cfgFallbackChars (group_pages pages).1).length + 1) := by
  simp only [generate, h1, h2, hc]

-- ── C1: chunk-summary assembly order ───────────────────────────────────────

/-- C1 (code evaluated at the failing input): with two submitted chunks and
completion order [1, 0] (the second chunk finishing first), the summary list
assembled by the `as_completed` loop is in completion order, not submission
order, even though [1, 0] is a permutation of the submission indices.  The
spec mandates reassembly in submission order; the code appends
`fut.result()` as futures complete. -/
theorem c1_completion_order_eval :
    collectByCompletion
      (summaryJobs (fun t => .ok t)
        [(strOutros, str "ato um"), (strOutros, str "ato dois")]) [1, 0] =
      .ok [str "ato dois", str "ato um"] ∧
    [str "ato dois", str "ato um"] ≠ [str "ato um", str "ato dois"] ∧
    List.Perm [1, 0] (List.range 2) := by
  refine ⟨by rfl, by decide, by decide⟩

-- ── C3: digest-keyed cache idempotence ─────────────────────────────────────

/-- C3: when the first `generate` call misses the cache, loads its pages and
completes (summary backend returning normally), it persists its returned
report under the PDF digest, and any second call with byte-identical PDF
input — hence the same digest — returns exactly that report text from the
cache with zero backend invocations, whatever its own backend environment
would do. -/
theorem c3_cache_idempotent (digestFn : List Nat → Str) (env : GenEnv)
    (cache : Cache) (pdfBytes : List Nat) (pages : List Str) (f : Str → Str)
    (h1 : lookupC cache (digestFn pdfBytes) = none)
    (h2 : env.loadPages = .ok pages)
    (h3 : env.summaryOracle = fun t => .ok (f t)) :
    (generate digestFn env cache pdfBytes).2.1 =
      (digestFn pdfBytes, (generate digestFn env cache pdfBytes).1) :: cache ∧
    ∀ env2 : GenEnv,
      generate digestFn env2 (generate digestFn env cache pdfBytes).2.1 pdfBytes =
        ((generate digestFn env cache pdfBytes).1,
         (generate digestFn env cache pdfBytes).2.1, 0) := by
  obtain ⟨linhas, hlin⟩ := collectByCompletion_ok
    (summaryJobs env.summaryOracle (chunksFor cfgFallbackChars (group_pages pages).1))
    env.completion
    (by
      intro j hj
      rw [h3] at hj
      obtain ⟨lt, _, he⟩ := List.mem_map.mp hj
      exact ⟨clean_textblock_artifacts (f lt.2), by rw [← he]; rfl⟩)
  have hgen := generate_miss_success digestFn env cache pdfBytes pages linhas h1 h2 hlin
  rw [hgen]
  refine ⟨rfl, ?_⟩
  intro env2
  exact generate_hit digestFn env2 _ pdfBytes _ (lookupC_insert cache (digestFn pdfBytes) _)

def envC3 : GenEnv :=
  { loadPages := .ok []
  , summaryOracle := fun t => .ok t
  , reportOracle := .ok (str "Relatório final.")
  , completion := [] }

theorem c3_cache_idempotent_witness :
    generate (fun _ => str "d") envC3
        (generate (fun _ => str "d") envC3 [] []).2.1 [] =
      ((generate (fun _ => str "d") envC3 [] []).1,
       (generate (fun _ => str "d") envC3 [] []).2.1, 0) :=
  (c3_cache_idempotent (fun _ => str "d") envC3 [] [] [] id rfl rfl rfl).2 envC3

-- ── C10: report-backend failure still populates the cache ──────────────────

/-- C10: if the report-model call inside `build_report` fails, `build_report`
returns the synthetic stub (which embeds the raw concatenated summaries as a
suffix), `generate` still writes that cleaned stub to the digest-keyed cache
and every subsequent call with the same PDF bytes returns the stub from the
cache with zero backend invocations; only a failure escaping to `generate`'s
outer handler (here: page loading) returns without touching the cache. -/
theorem c10_stub_cached (digestFn : List Nat → Str) (env : GenEnv)
    (cache : Cache) (pdfBytes : List Nat) (pages : List Str) (f : Str → Str) (e : Str)
    (h1 : lookupC cache (digestFn pdfBytes) = none)
    (h2 : env.loadPages = .ok pages)
    (h3 : env.summaryOracle = fun t => .ok (f t))
    (h4 : env.reportOracle = .error e) :
    (∀ a pn2, a <:+ build_report a pn2 (.error e)) ∧
    (generate digestFn env cache pdfBytes).2.1 =
      (digestFn pdfBytes, (generate digestFn env cache pdfBytes).1) :: cache ∧
    (∃ linhas,
      (generate digestFn env cache pdfBytes).1 =
        clean_textblock_artifacts
          (build_report (joinNl linhas) (group_pages pages).2 (.error e))) ∧
    (∀ env2 : GenEnv,
      generate digestFn env2 (generate digestFn env cache pdfBytes).2.1 pdfBytes =
        ((generate digestFn env cache pdfBytes).1,
         (generate digestFn env cache pdfBytes).2.1, 0)) ∧
    (∀ (env3 : GenEnv) (cache3 : Cache) (bytes3 : List Nat) (e3 : Str),
      env3.loadPages = .error e3 →
      lookupC cache3 (digestFn bytes3) = none →
      generate digestFn env3 cache3 bytes3 = (strErro e3, cache3, 0)) := by
  obtain ⟨linhas, hlin⟩ := collectByCompletion_ok
    (summaryJobs env.summaryOracle (chunksFor cfgFallbackChars (group_pages pages).1))
    env.completion
    (by
      intro j hj
      rw [h3] at hj
      obtain ⟨lt, _, he⟩ := List.mem_map.mp hj
      exact ⟨clean_textblock_artifacts (f lt.2), by rw [← he]; rfl⟩)
  have hgen := generate_miss_success digestFn env cache pdfBytes pages linhas h1 h2 hlin
  rw [h4] at hgen
  refine ⟨?_, ?_, ?_, ?_, ?_⟩
  · intro a pn2
    cases pn2 with
    | none => exact ⟨strStub ++ strNlNl, by simp [build_report]⟩
    | some p =>
      by_cases hp : p = []
      · exact ⟨strStub ++ strNlNl, by simp [build_report, hp]⟩
      · exact ⟨strProcessoNum ++ p ++ strNlNl ++ strStub ++ strNlNl,
          by simp [build_report, hp]⟩
  · rw [hgen]
  · exact ⟨linhas, by rw [hgen]⟩
  · intro env2
    rw [hgen]
    exact generate_hit digestFn env2 _ pdfBytes _ (lookupC_insert cache (digestFn pdfBytes) _)
  · intro env3 cache3 bytes3 e3 hload hmiss
    unfold generate
    rw [hmiss, hload]

def envC10 : GenEnv :=
  { loadPages := .ok [str "texto da petição inicial"]
  , summaryOracle := fun t => .ok t
  , reportOracle := .error (str "timeout")
  , completion := [0] }

theorem c10_stub_cached_witness :
    generate (fun _ => str "d") envC10
        (generate (fun _ => str "d") envC10 [] []).2.1 [] =
      ((generate (fun _ => str "d") envC10 [] []).1,
       (generate (fun _ => str "d") envC10 [] []).2.1, 0) :=
  (c10_stub_cached (fun _ => str "d") envC10 [] [] [str "texto da petição inicial"]
    id (str "timeout") rfl rfl rfl rfl).2.2.2.1 envC10

-- ═══════════════════════ EmbeddingRetriever & CrossEncoderReranker ════════
-- Source: src/backend/services/retrieval_rerank.py lines 39-121 and
-- src/backend/preprocessing/sentence_indexing_rag.py lines 41-60.
-- Scores are modelled over ℚ; the Elasticsearch client, the OpenAI embedding
-- call and the cross-encoder are oracles.

structure Hit where
  hid : Str
  relatorio : Str
  fundamentacao : Str
  dispositivo : Str
  score : ℚ
deriving DecidableEq

structure Cand where
  cid : Str
  relatorio : Str
  fundamentacao : Str
  dispositivo : Str
  score_es : ℚ
deriving DecidableEq

structure CandR where
  cid : Str
  relatorio : Str
  fundamentacao : Str
  dispositivo : Str
  score_es : ℚ
  score_rerank : ℚ
deriving DecidableEq

/-- The projection of one search hit into a candidate record. -/
def toCand (h : Hit) : Cand :=
  ⟨h.hid, h.relatorio, h.fundamentacao, h.dispositivo, h.score⟩

/-- Attaching one rerank score to one candidate (`c["score_rerank"] = score`). -/
def attachScore (c : Cand) (s : ℚ) : CandR :=
  ⟨c.cid, c.relatorio, c.fundamentacao, c.dispositivo, c.score_es, s⟩

/-- `for c, score in zip(candidatos, rerank_scores)`. -/
def attachScores (cs : List Cand) (scores : List ℚ) : List CandR :=
  List.zipWith attachScore cs scores

/-- Stable insertion step for descending sort: the inserted element precedes
every element of not-larger score (elements are inserted right to left, so
this keeps equal-score elements in encounter order, exactly like Python's
stable `list.sort(key=..., reverse=True)`). -/
def insertDesc (x : CandR) : List CandR → List CandR
  | [] => [x]
  | y :: ys =>
    if y.score_rerank ≤ x.score_rerank then x :: y :: ys else y :: insertDesc x ys

/-- `candidatos.sort(key=lambda x: x["score_rerank"], reverse=True)`:
observationally the unique stable descending sort. -/
def pySortDesc (l : List CandR) : List CandR := l.foldr insertDesc []

/-- Modelled from the spec: sort by descending rerank score with ties broken
by encounter order — realised as a sort of index-tagged candidates by the
strict lexicographic order (higher score first, then smaller original
index). -/
def insertLex (x : Nat × CandR) : List (Nat × CandR) → List (Nat × CandR)
  | [] => [x]
  | y :: ys =>
    if y.2.score_rerank < x.2.score_rerank ∨
        (x.2.score_rerank = y.2.score_rerank ∧ x.1 < y.1) then x :: y :: ys
    else y :: insertLex x ys

def specStableSortDesc (l : List CandR) : List CandR :=
  ((l.enum).foldr insertLex []).map Prod.snd

/-- Oracle environment of one retrieval call. -/
structure RetrEnv where
  setup : Except Str Unit
  embed : Str → Except Str (List ℚ)
  search : Nat → List ℚ → Except Str (List Hit)
  rerank : List (Str × Str) → Except Str (List ℚ)

/-- `ElasticsearchSetup.create_openai_embedding`: truncate the text to 8000
characters; an embedding-backend failure is caught *inside* and replaced by
the 3072-dimensional zero vector — the caller never sees it. -/
def create_openai_embedding (env : RetrEnv) (text : Str) : List ℚ :=
  match env.embed (text.take 8000) with
  | .ok v => v
  | .error _ => List.replicate 3072 0

/-- `recuperar_documentos_similares`: embed, KNN search, project hits,
cross-encoder rerank, stable descending sort, truncate to `rerank_top_k`.
Every failure of setup, search or rerank is caught and yields `[]`.  When the
cross-encoder returns fewer scores than candidates, the sort's key lookup
raises and the outer handler yields `[]` as well. -/
def recuperar_documentos_similares (query : Str) (top_k rerank_top_k : Nat)
    (env : RetrEnv) : List CandR :=
  match env.setup with
  | .error _ => []
  | .ok _ =>
    let query_vec := create_openai_embedding env query
    match env.search top_k query_vec with
    | .error _ => []
    | .ok hits =>
      if hits = [] then []
      else
        let candidatos := hits.map toCand
        if candidatos = [] then []
        else
          match env.rerank (candidatos.map (fun c => (query, c.relatorio))) with
          | .error _ => []
          | .ok scores =>
            if candidatos.length ≤ scores.length then
              (pySortDesc (attachScores candidatos scores)).take rerank_top_k
            else []

-- ── the stable sort agrees with the spec's order ───────────────────────────

theorem mem_insertLex (x : Nat × CandR) (l : List (Nat × CandR)) :
    ∀ p ∈ insertLex x l, p = x ∨ p ∈ l := by
  induction l with
  | nil => intro p hp; simp [insertLex] at hp; exact Or.inl hp
  | cons y ys ih =>
    intro p hp
    unfold insertLex at hp
    by_cases hc : (y.2.score_rerank < x.2.score_rerank ∨
        (x.2.score_rerank = y.2.score_rerank ∧ x.1 < y.1))
    · rw [if_pos hc] at hp
      rcases List.mem_cons.1 hp with h1 | h2
      · exact Or.inl h1
      · exact Or.inr h2
    · rw [if_neg hc] at hp
      rcases List.mem_cons.1 hp with h1 | h2
      · exact Or.inr (by simp [h1])
      · rcases ih p h2 with h3 | h4
        · exact Or.inl h3
        · exact Or.inr (by simp [h4])

theorem mem_foldr_insertLex (L : List (Nat × CandR)) :
    ∀ p ∈ L.foldr insertLex [], p ∈ L := by
  induction L with
  | nil => intro p hp; simp at hp
  | cons x xs ih =>
    intro p hp
    rcases mem_insertLex x (xs.foldr insertLex []) p hp with h1 | h2
    · simp [h1]
    · exact List.mem_cons_of_mem x (ih p h2)

theorem fst_ge_of_mem_enumFrom (l : List CandR) :
    ∀ n p, p ∈ List.enumFrom n l → n ≤ p.1 := by
  induction l with
  | nil => intro n p hp; simp at hp
  | cons x xs ih =>
    intro n p hp
    rcases List.mem_cons.1 hp with h1 | h2
    · simp [h1]
    · exact Nat.le_of_succ_le (ih (n + 1) p h2)

theorem map_snd_insertLex (n : Nat) (x : CandR) (l : List (Nat × CandR))
    (hl : ∀ p ∈ l, n < p.1) :
    (insertLex (n, x) l).map Prod.snd = insertDesc x (l.map Prod.snd) := by
  induction l with
  | nil => simp [insertLex, insertDesc]
  | cons y ys ih =>
    have hny : n < y.1 := hl y (by simp)
    by_cases hc : y.2.score_rerank ≤ x.score_rerank
    · have hcond : (y.2.score_rerank < x.score_rerank ∨
          (x.score_rerank = y.2.score_rerank ∧ n < y.1)) := by
        rcases lt_or_eq_of_le hc with h | h
        · exact Or.inl h
        · exact Or.inr ⟨h.symm, hny⟩
      simp [insertLex, insertDesc, hcond, hc]
    · have hxy : x.score_rerank < y.2.score_rerank := not_le.mp hc
      have hcond : ¬(y.2.score_rerank < x.score_rerank ∨
          (x.score_rerank = y.2.score_rerank ∧ n < y.1)) := by
        rintro (h | ⟨heq, _⟩)
        · exact absurd h (not_lt.mpr (le_of_lt hxy))
        · exact absurd heq (ne_of_lt hxy)
      simp only [insertLex, if_neg hcond, insertDesc, if_neg hc, List.map_cons]
      rw [ih (fun p hp => hl p (List.mem_cons_of_mem _ hp))]

theorem pySort_eq_spec_from (l : List CandR) : ∀ n,
    ((List.enumFrom n l).foldr insertLex []).map Prod.snd = l.foldr insertDesc [] := by
  induction l with
  | nil => intro n; simp
  | cons x xs ih =>
    intro n
    have he : List.enumFrom n (x :: xs) = (n, x) :: List.enumFrom (n + 1) xs := rfl
    rw [he]
    simp only [List.foldr_cons]
    rw [map_snd_insertLex n x _ ?hmem, ih (n + 1)]
    case hmem =>
      intro p hp
      have hmem2 : p ∈ List.enumFrom (n + 1) xs :=
        mem_foldr_insertLex (List.enumFrom (n + 1) xs) p hp
      exact Nat.lt_of_succ_le (fst_ge_of_mem_enumFrom xs (n + 1) p hmem2)

/-- Python's stable descending sort realises the spec's ordering: descending
rerank score, ties broken by encounter order. -/
theorem pySortDesc_eq_specStableSortDesc (l : List CandR) :
    pySortDesc l = specStableSortDesc l := by
  unfold pySortDesc specStableSortDesc
  rw [show l.enum = List.enumFrom 0 l from rfl]
  exact (pySort_eq_spec_from l 0).symm

theorem mem_insertDesc (x : CandR) (l : List CandR) :
    ∀ p ∈ insertDesc x l, p = x ∨ p ∈ l := by
  induction l with
  | nil => intro p hp; simp [insertDesc] at hp; exact Or.inl hp
  | cons y ys ih =>
    intro p hp
    unfold insertDesc at hp
    by_cases hc : y.score_rerank ≤ x.score_rerank
    · rw [if_pos hc] at hp
      rcases List.mem_cons.1 hp with h1 | h2
      · exact Or.inl h1
      · exact Or.inr h2
    · rw [if_neg hc] at hp
      rcases List.mem_cons.1 hp with h1 | h2
      · exact Or.inr (by simp [h1])
      · rcases ih p h2 with h3 | h4
        · exact Or.inl h3
        · exact Or.inr (by simp [h4])

theorem sorted_insertDesc (x : CandR) (l : List CandR)
    (hl : List.Pairwise (fun a b => b.score_rerank ≤ a.score_rerank) l) :
    List.Pairwise (fun a b => b.score_rerank ≤ a.score_rerank) (insertDesc x l) := by
  induction l with
  | nil => simp [insertDesc]
  | cons y ys ih =>
    rcases List.pairwise_cons.1 hl with ⟨hy, hys⟩
    by_cases hc : y.score_rerank ≤ x.score_rerank
    · rw [insertDesc, if_pos hc]
      refine List.pairwise_cons.2 ⟨?_, hl⟩
      intro z hz
      rcases List.mem_cons.1 hz with h1 | h2
      · rw [h1]; exact hc
      · exact le_trans (hy z h2) hc
    · rw [insertDesc, if_neg hc]
      refine List.pairwise_cons.2 ⟨?_, ih hys⟩
      intro z hz
      rcases mem_insertDesc x ys z hz with h1 | h2
      · rw [h1]; exact le_of_lt (not_le.mp hc)
      · exact hy z h2

theorem sorted_pySortDesc (l : List CandR) :
    List.Pairwise (fun a b => b.score_rerank ≤ a.score_rerank) (pySortDesc l) := by
  induction l with
  | nil => simp [pySortDesc]
  | cons x xs ih => exact sorted_insertDesc x (pySortDesc xs) ih

-- ── C6: rerank truncation and deterministic ordering ───────────────────────

/-- C6: on the success path (setup, search with nonempty hits, and rerank
with one score per candidate all succeeding), the retrieval function returns
exactly the first `rerank_top_k` candidates of the stable descending sort by
rerank score (ties broken by encounter order, per
`pySortDesc_eq_specStableSortDesc`); in particular the output never has more
than `rerank_top_k` elements and is sorted by descending rerank score. -/
theorem c6_rerank_truncation (query : Str) (top_k k : Nat) (env : RetrEnv)
    (hits : List Hit) (scores : List ℚ)
    (hsetup : env.setup = .ok ())
    (hsearch : env.search top_k (create_openai_embedding env query) = .ok hits)
    (hne : hits ≠ [])
    (hrerank : env.rerank ((hits.map toCand).map (fun c => (query, c.relatorio))) =
      .ok scores)
    (hlen : (hits.map toCand).length ≤ scores.length) :
    recuperar_documentos_similares query top_k k env =
      (specStableSortDesc (attachScores (hits.map toCand) scores)).take k ∧
    (recuperar_documentos_similares query top_k k env).length ≤ k ∧
    List.Pairwise (fun a b => b.score_rerank ≤ a.score_rerank)
      (recuperar_documentos_similares query top_k k env) := by
  have hcne : ¬(hits.map toCand = []) := by
    intro hcon
    exact hne (List.map_eq_nil_iff.mp hcon)
  have hre : recuperar_documentos_similares query top_k k env =
      (pySortDesc (attachScores (hits.map toCand) scores)).take k := by
    simp only [recuperar_documentos_similares, hsetup, hsearch, if_neg hne,
      if_neg hcne, hrerank, if_pos hlen]
  refine ⟨by rw [hre, pySortDesc_eq_specStableSortDesc], ?_, ?_⟩
  · rw [hre]
    exact List.length_take_le k _
  · rw [hre]
    exact (sorted_pySortDesc _).sublist (List.take_sublist k _)

def hitW : Hit := ⟨str "doc1", str "relatório exemplar", str "fundamentação", str "dispositivo", 1⟩

def envC6 : RetrEnv :=
  { setup := .ok ()
  , embed := fun _ => .ok [1]
  , search := fun _ _ => .ok [hitW]
  , rerank := fun _ => .ok [2] }

theorem c6_rerank_truncation_witness :
    (recuperar_documentos_similares (str "consulta") 10 5 envC6).length ≤ 5 :=
  (c6_rerank_truncation (str "consulta") 10 5 envC6 [hitW] [2]
    rfl rfl (by simp) rfl (by decide)).2.1

-- ═══════════════════════ SentenceSynthesizer (gerar_sentenca_llm) ═════════
-- Source: src/backend/services/llm.py lines 100-236.  The completion call is
-- an oracle applied to the assembled prompt; the long static instructional
-- prose of the prompt is abbreviated to sentinel fragments, since no claim
-- depends on its content, only on what is assembled around it.

structure RefDoc where
  relatorio : Str
  fundamentacao : Str
  dispositivo : Str
deriving DecidableEq

/-- `f"Exemplo {i}:\n"`. -/
def strExemploHdr (i : Nat) : Str :=
  str "Exemplo " ++ (toString i).data ++ str ":" ++ [chNl]

/-- One exemplar block: header plus the truncated excerpts of whichever of
the three sections are present (non-empty). -/
def mkExemplo (i : Nat) (d : RefDoc) : Str :=
  strExemploHdr i ++
  (if d.relatorio ≠ [] then
    str "Relatório: " ++ d.relatorio.take 500 ++ str "..." ++ [chNl, chNl]
  else []) ++
  (if d.fundamentacao ≠ [] then
    str "Fundamentação: " ++ d.fundamentacao.take 1000 ++ str "..." ++ [chNl, chNl]
  else []) ++
  (if d.dispositivo ≠ [] then
    str "Dispositivo: " ++ d.dispositivo.take 500 ++ str "..." ++ [chNl]
  else [])

/-- `for i, d in enumerate(docs, 1): ...`: one exemplar per candidate
document, in order — no deduplication, no cap. -/
def exemplosOf (docs : List RefDoc) : List Str :=
  (docs.enum).map (fun p => mkExemplo (p.1 + 1) p.2)

/-- The report-section excerpts included in the prompt's exemplar blocks, in
order (`d['relatorio'][:500]` for every doc with a non-empty report
section). -/
def reportExcerptsOf (docs : List RefDoc) : List Str :=
  docs.filterMap (fun d =>
    if d.relatorio = [] then none else some (d.relatorio.take 500))

def strSepLine : Str := [chNl, chNl] ++ str "---" ++ [chNl, chNl]

/-- `"\n\n---\n\n".join(exemplos)`. -/
def joinWith (sep : Str) : List Str → Str
  | [] => []
  | [x] => x
  | x :: y :: xs => x ++ sep ++ joinWith sep (y :: xs)

def strErrRel : Str := str "Erro: Relatório não fornecido ou vazio."
def strErrNoDocs : Str := str "Erro: Nenhum documento de referência fornecido."

def strPromptHead : Str := str "### CONTEXTO" ++ [chNl]
def strPromptMid : Str := [chNl] ++ str "NOVO RELATÓRIO:" ++ [chNl]
def strPromptTail : Str := [chNl] ++ str "## ESTRUTURA DA SENTENÇA" ++ [chNl]

/-- The optional user-instructions block. -/
def instrAdOf (instrucoes : Str) : Str :=
  if pyStrip instrucoes = [] then []
  else [chNl, chNl] ++ str "### INSTRUÇÕES ADICIONAIS DO USUÁRIO:" ++ [chNl] ++
    pyStrip instrucoes ++ [chNl]

/-- `gerar_sentenca_llm`: fail fast with a descriptive error string — before
any backend call — on an empty/blank report or an empty candidate list;
otherwise assemble the prompt (exemplar context, new report, optional user
instructions, fixed rubric) and make exactly one completion call.  The
second component counts backend calls; `_call_llm` itself catches backend
exceptions and returns an error string, so the oracle is total. -/
def gerar_sentenca_llm (relatorio : Str) (docs : List RefDoc) (instrucoes : Str)
    (oracle : Str → Str) : Str × Nat :=
  if pyStrip relatorio = [] then (strErrRel, 0)
  else if docs = [] then (strErrNoDocs, 0)
  else
    (oracle (strPromptHead ++ joinWith strSepLine (exemplosOf docs) ++
      strPromptMid ++ relatorio ++ instrAdOf instrucoes ++ strPromptTail), 1)

-- ── similarity score (spec-modelled) ───────────────────────────────────────

def lcsNext (c : Char) : Str → List Nat → Nat → Nat → List Nat
  | [], _, _, _ => []
  | _ :: _, [], _, _ => []
  | b :: bs, p :: ps, diag, cur =>
    let v := if c = b then diag + 1 else max cur p
    v :: lcsNext c bs ps p v

def lcsRowStep (c : Char) (bs : Str) (prevRow : List Nat) : List Nat :=
  match prevRow with
  | [] => []
  | d :: ps => 0 :: lcsNext c bs ps d 0

/-- Longest-common-subsequence length by dynamic programming. -/
def lcsLen (a b : Str) : Nat :=
  (a.foldl (fun row c => lcsRowStep c b row) (List.replicate (b.length + 1) 0)).getLastD 0

/-- Modelled from the spec: the string-similarity ratio used to describe
near-duplicate exemplar excerpts (a difflib-style `2*M/T` measure over the
longest common subsequence; equal strings score 1).  The repository's
synthesizer computes no similarity at all — this definition exists only to
state the claim about the 0.85 threshold. -/
def simScore (a b : Str) : ℚ :=
  if a.length + b.length = 0 then 1
  else mkRat (2 * lcsLen a b) (a.length + b.length)

-- ── C5: exemplar deduplication ─────────────────────────────────────────────

def dDup : RefDoc :=
  ⟨str "mesmo relatório", str "mesma fundamentação", str "mesmo dispositivo"⟩

/-- C5 (counterexample): with two identical candidate documents, the
exemplar set embedded in the prompt contains the identical report excerpt
twice — a pair of similarity 1 ≥ 0.85 — and with six candidates the
synthesizer emits six exemplars, not five: there is no deduplication and no
5-exemplar cap. -/
theorem c5_counterexample :
    reportExcerptsOf [dDup, dDup] =
      [str "mesmo relatório", str "mesmo relatório"] ∧
    mkRat 17 20 ≤ simScore (str "mesmo relatório") (str "mesmo relatório") ∧
    (exemplosOf [dDup, dDup, dDup, dDup, dDup, dDup]).length = 6 := by
  refine ⟨by decide, by decide, by decide⟩

/-- C5 (amended): the synthesizer includes exactly one exemplar per candidate
document, in submission order, with section excerpts truncated to fixed
lengths (500/1000/500 characters); it performs no near-duplicate filtering
and imposes no 5-exemplar cap — the exemplar count always equals the
candidate count. -/
theorem c5_no_dedup_no_cap (docs : List RefDoc) :
    (exemplosOf docs).length = docs.length ∧
    ∀ i, (exemplosOf docs)[i]? = (docs[i]?).map (fun d => mkExemplo (i + 1) d) := by
  constructor
  · simp [exemplosOf]
  · intro i
    simp only [exemplosOf, List.getElem?_map, List.getElem?_enum]
    cases docs[i]? with
    | none => rfl
    | some d => rfl

-- ── C7: failure handling in retrieval and synthesis ────────────────────────

def envC7fail : RetrEnv :=
  { setup := .ok ()
  , embed := fun _ => .error (str "falha na api de embeddings")
  , search := fun _ _ => .ok [hitW]
  , rerank := fun _ => .ok [1] }

/-- C7 (counterexample): an embedding-backend failure does NOT make the
retrieval function return an empty sequence — `create_openai_embedding`
swallows it and substitutes the 3072-dimensional zero vector, and retrieval
proceeds: here the embedding oracle fails yet the function returns a
nonempty candidate list. -/
theorem c7_counterexample :
    envC7fail.embed ((str "consulta").take 8000) =
      .error (str "falha na api de embeddings") ∧
    recuperar_documentos_similares (str "consulta") 10 5 envC7fail ≠ [] := by
  refine ⟨rfl, by decide⟩

/-- C7 (amended): a setup failure, a nearest-neighbor-search failure or a
cross-encoder-scoring failure makes retrieval return the empty sequence
rather than raise (an embedding failure instead degrades to a zero-vector
query, per the counterexample); and the sentence synthesizer, called with a
non-blank report and an empty candidate list, returns the descriptive
no-documents error string with zero backend calls. -/
theorem c7_failure_paths (query : Str) (tk k : Nat) (env : RetrEnv) :
    (∀ e, env.setup = .error e →
      recuperar_documentos_similares query tk k env = []) ∧
    (∀ e, env.setup = .ok () →
      env.search tk (create_openai_embedding env query) = .error e →
      recuperar_documentos_similares query tk k env = []) ∧
    (∀ e hits, env.setup = .ok () →
      env.search tk (create_openai_embedding env query) = .ok hits →
      env.rerank ((hits.map toCand).map (fun c => (query, c.relatorio))) = .error e →
      recuperar_documentos_similares query tk k env = []) ∧
    (∀ (relatorio instrucoes : Str) (oracle : Str → Str), pyStrip relatorio ≠ [] →
      gerar_sentenca_llm relatorio [] instrucoes oracle = (strErrNoDocs, 0)) := by
  refine ⟨?_, ?_, ?_, ?_⟩
  · intro e h
    simp [recuperar_documentos_similares, h]
  · intro e hsetup hsearch
    simp [recuperar_documentos_similares, hsetup, hsearch]
  · intro e hits hsetup hsearch hrerank
    by_cases hne : hits = []
    · simp [recuperar_documentos_similares, hsetup, hsearch, hne]
    · have hcne : ¬(hits.map toCand = []) := by
        intro hcon
        exact hne (List.map_eq_nil_iff.mp hcon)
      have hrerank2 : env.rerank (hits.map ((fun c => (query, c.relatorio)) ∘ toCand)) =
          .error e := by
        rw [← List.map_map]
        exact hrerank
      simp [recuperar_documentos_similares, hsetup, hsearch, hne, hcne, hrerank2]
  · intro relatorio instrucoes oracle h
    simp [gerar_sentenca_llm, h]

def envSetupFail : RetrEnv :=
  { setup := .error (str "OPENAI_API_KEY não encontrada")
  , embed := fun _ => .ok []
  , search := fun _ _ => .ok []
  , rerank := fun _ => .ok [] }

theorem c7_failure_paths_witness :
    recuperar_documentos_similares (str "consulta") 10 5 envSetupFail = [] ∧
    gerar_sentenca_llm (str "relatório do processo") [] (str "") (fun p => p) =
      (strErrNoDocs, 0) :=
  ⟨(c7_failure_paths (str "consulta") 10 5 envSetupFail).1
      (str "OPENAI_API_KEY não encontrada") rfl,
   (c7_failure_paths (str "consulta") 10 5 envSetupFail).2.2.2
      (str "relatório do processo") (str "") (fun p => p) (by decide)⟩
